import Mathlib

/-!
# Verification of the compose_yml v2 normalization core

A shallow embedding of the repository's v2 parsing/serialization core:

* `AliasedName` with `new`, `validate`, `from_str`, `to_string`
  (from `src/v2/aliased_name.in.rs`);
* `EnvFile.read` / `EnvFile.load` (from `src/v2/env_file.rs`);
* the string-or-struct normalization engine
  (from `src/v2/string_or_struct.rs`).

Strings are modelled as `List Char` (Rust `String` is a sequence of
chars for the grammars involved here; none of the claims depend on
UTF-8 byte-level details).  The regular expressions in the source are
small anchored character-class grammars and are embedded as the
equivalent character scanners, preserving the exact accepted/rejected
sets and capture groups of the regexes as written in the source
(including the `(:?` typo in the env-file BLANK regex).
-/

namespace ComposeYml

/-- Result values are compared with decidable equality so that concrete
runs of the embedded functions can be checked by `decide`. -/
instance {ε α : Type} [DecidableEq ε] [DecidableEq α] :
    DecidableEq (Except ε α) := fun
  | .ok a, .ok b =>
    if h : a = b then .isTrue (by rw [h])
    else .isFalse (by intro he; cases he; exact h rfl)
  | .ok _, .error _ => .isFalse (by intro h; cases h)
  | .error _, .ok _ => .isFalse (by intro h; cases h)
  | .error a, .error b =>
    if h : a = b then .isTrue (by rw [h])
    else .isFalse (by intro he; cases he; exact h rfl)

/-- Modelled from the spec: `InvalidValueError` lives in the `errors`
module, which is not part of the provided sources.  Per the spec's error
surface, it carries the semantic category (e.g. "aliased name") and the
offending literal input. -/
structure InvalidValueError where
  wanted : List Char
  given : List Char
deriving DecidableEq, Repr

/-- The semantic category string `"aliased name"` used by the
aliased-name parser's errors. -/
def aliasedNameCategory : List Char := ['a','l','i','a','s','e','d',' ','n','a','m','e']

/-- `AliasedName` from `aliased_name.in.rs`: the name of an external
resource and an optional local alias.  Both fields are public in the
source. -/
structure AliasedName where
  name : List Char
  /-- Called `alias` in the source; `alias` is a reserved word in Lean. -/
  alias_ : Option (List Char)
deriving DecidableEq, Repr

namespace AliasedName

/-- Rust's derived `Debug` rendering used by `validate`'s error value
(`format!("{:?}", &self)`).  Only the fact that `validate` errors, not
this rendered text, is inspected by any claim; the rendering here
follows the derived `Debug` layout for the common case. -/
def debugFormat (a : AliasedName) : List Char :=
  let quote := fun (s : List Char) => '"' :: s ++ ['"']
  let aliasPart :=
    match a.alias_ with
    | none => ['N','o','n','e']
    | some al => ['S','o','m','e','('] ++ quote al ++ [')']
  ['A','l','i','a','s','e','d','N','a','m','e',' ','{',' ','n','a','m','e',':',' ']
    ++ quote a.name
    ++ [',',' ','a','l','i','a','s',':',' '] ++ aliasPart ++ [' ','}']

/-- `AliasedName::validate`: fail iff `name` or the present `alias`
contains `':'`. -/
def validate (a : AliasedName) : Except InvalidValueError Unit :=
  let bad_name := a.name.contains ':'
  let bad_alias := (a.alias_.map (fun al => al.contains ':')).getD false
  if bad_name || bad_alias then
    .error ⟨aliasedNameCategory, debugFormat a⟩
  else
    .ok ()

/-- `AliasedName::new`: build the record, then `validate` it. -/
def new (name : List Char) (alias_ : Option (List Char)) :
    Except InvalidValueError AliasedName :=
  let result : AliasedName := ⟨name, alias_⟩
  match result.validate with
  | .error e => .error e
  | .ok _ => .ok result

/-- `AliasedName::from_str`, the regex `^([^:]+)(?::([^:]+))?$`
embedded as the equivalent scanner: a non-empty colon-free name,
optionally followed by `':'` and a non-empty colon-free alias; anything
else is an invalid-value error carrying the input. -/
def from_str (s : List Char) : Except InvalidValueError AliasedName :=
  let name := s.takeWhile (fun c => c != ':')
  let rest := s.dropWhile (fun c => c != ':')
  if name.isEmpty then
    .error ⟨aliasedNameCategory, s⟩
  else
    match rest with
    | [] => .ok ⟨name, none⟩
    | _ :: t =>
      if t.isEmpty || t.contains ':' then
        .error ⟨aliasedNameCategory, s⟩
      else
        .ok ⟨name, some t⟩

/-- `AliasedName::to_string`: re-validate, then render `"name"` or
`"name:alias"`. -/
def to_string (a : AliasedName) : Except InvalidValueError (List Char) :=
  match a.validate with
  | .error e => .error e
  | .ok _ =>
    match a.alias_ with
    | some al => .ok (a.name ++ ':' :: al)
    | none => .ok a.name

end AliasedName

/-- The spec's grammar for aliased-name tokens, written from the spec's
words (`^([^:]+)(?::([^:]+))?$`: mandatory non-empty colon-free name,
optional `:` plus non-empty colon-free alias), used to compare the
source's parser against the spec. -/
def SpecAcceptsAliasedName (s : List Char) : Prop :=
  (s ≠ [] ∧ ':' ∉ s) ∨
    ∃ n al, s = n ++ ':' :: al ∧ n ≠ [] ∧ ':' ∉ n ∧ al ≠ [] ∧ ':' ∉ al

/-! ## Environment-file parser (`src/v2/env_file.rs`) -/

/-- The ASCII whitespace characters matched by the regex class `\s` on
the inputs relevant here (the full class also contains exotic Unicode
whitespace; no claim involves those). -/
def isSpaceChar (c : Char) : Bool :=
  c = ' ' || c = '\t' || c = '\n' || c = '\r' || c = '\x0b' || c = '\x0c'

/-- The BLANK regex `^\s*(:?#.*)?$` exactly as written in the source:
optional whitespace, then optionally (an OPTIONAL `':'` — the source
says `(:?`, not the non-capturing group `(?:` — followed by `'#'` and
the rest of the line).  Lines are `'\n'`-free, as produced by
`BufRead::lines`. -/
def blankLine (l : List Char) : Bool :=
  match l.dropWhile isSpaceChar with
  | [] => true
  | '#' :: _ => true
  | ':' :: '#' :: _ => true
  | _ => false

/-- First character of the identifier class `[_A-Za-z]`. -/
def isIdentStart (c : Char) : Bool :=
  c = '_' || ('A' ≤ c && c ≤ 'Z') || ('a' ≤ c && c ≤ 'z')

/-- Subsequent characters of the identifier class `[_A-Za-z0-9]`. -/
def isIdentChar (c : Char) : Bool :=
  isIdentStart c || ('0' ≤ c && c ≤ '9')

/-- The VAR regex `^([_A-Za-z][_A-Za-z0-9]*)=(.*)` as a scanner on a
`'\n'`-free line: capture 1 is a maximal identifier prefix which must
be followed by `'='`; capture 2 is the rest of the line, verbatim.
Returns `none` when the line does not match. -/
def varLine (l : List Char) : Option (List Char × List Char) :=
  match l with
  | [] => none
  | c :: cs =>
    if isIdentStart c then
      match cs.dropWhile isIdentChar with
      | '=' :: value => some (c :: cs.takeWhile isIdentChar, value)
      | _ => none
    else none

/-- An I/O error from the platform, treated abstractly. -/
structure IoErr where
  code : Nat
deriving DecidableEq, Repr

/-- One item of the line stream produced by `reader.lines()`: either a
line of text (without its terminator) or an I/O failure. -/
abbrev LineResult : Type := Except IoErr (List Char)

/-- Modelled from the spec: the error values of the missing `errors`
module used by `EnvFile::read` — the `chain_err(|| "I/O error")`
wrapper around a line-read I/O failure, and `ErrorKind::ParseEnv(line)`
carrying the offending line text. -/
inductive EnvReadErr where
  | ioError (e : IoErr)
  | parseEnv (line : List Char)
deriving DecidableEq, Repr

/-- The variable map.  The source's `BTreeMap<String, String>` is
modelled as a key-unique association list: `insertVar` overwrites the
value of an existing key and appends a new key, which preserves exactly
the key-set/lookup semantics of `BTreeMap::insert`. -/
def insertVar (k v : List Char) : List (List Char × List Char) →
    List (List Char × List Char)
  | [] => [(k, v)]
  | (k', v') :: rest =>
    if k = k' then (k, v) :: rest else (k', v') :: insertVar k v rest

/-- `BTreeMap` lookup on the association-list model. -/
def lookupVar (k : List Char) : List (List Char × List Char) →
    Option (List Char)
  | [] => none
  | (k', v) :: rest => if k' = k then some v else lookupVar k rest

namespace EnvFile

/-- The loop body of `EnvFile::read`: process each line result in
order; propagate line I/O errors (chained as "I/O error"); skip BLANK
lines; insert `VAR` captures; fail with `ParseEnv(line)` otherwise. -/
def readGo : List LineResult → List (List Char × List Char) →
    Except EnvReadErr (List (List Char × List Char))
  | [], vars => .ok vars
  | lineRes :: rest, vars =>
    match lineRes with
    | .error e => .error (.ioError e)
    | .ok line =>
      if blankLine line then
        readGo rest vars
      else
        match varLine line with
        | some (k, v) => readGo rest (insertVar k v vars)
        | none => .error (.parseEnv line)

/-- `EnvFile::read`: fold the line stream into the variable map. -/
def read (input : List LineResult) :
    Except EnvReadErr (List (List Char × List Char)) :=
  readGo input []

end EnvFile

/-- A helper for stating claims about pure text inputs: a stream in
which every line reads successfully. -/
def pureLines (ls : List (List Char)) : List LineResult :=
  ls.map .ok

/-- Modelled from the spec: the cause chained under
`ErrorKind::ReadFile(path)` by `EnvFile::load` — either the I/O error
from `fs::File::open`, or the error from `EnvFile::read` (a parse error
or a chained line-read I/O error).  The two are structurally distinct,
matching the distinct `error_chain` cause chains in the source. -/
inductive EnvLoadCause where
  | openFailed (e : IoErr)
  | readFailed (e : EnvReadErr)
deriving DecidableEq, Repr

/-- Modelled from the spec: `ErrorKind::ReadFile(path)` layered over
its cause by `chain_err`. -/
inductive EnvLoadErr where
  | readFile (path : List Char) (cause : EnvLoadCause)
deriving DecidableEq, Repr

/-- `EnvFile::load`: open the file at `path` (the file system is the
external collaborator, modelled as an oracle from paths to either an
open error or a stream of line reads), read it, and chain every failure
with `ErrorKind::ReadFile(path)`. -/
def EnvFile.load (fsys : List Char → Except IoErr (List LineResult))
    (path : List Char) :
    Except EnvLoadErr (List (List Char × List Char)) :=
  match fsys path with
  | .error e => .error (.readFile path (.openFailed e))
  | .ok stream =>
    match EnvFile.read stream with
    | .error e => .error (.readFile path (.readFailed e))
    | .ok vars => .ok vars

/-! ## String-or-struct normalization engine (`src/v2/string_or_struct.rs`) -/

/-- The structured-data tree collaborator (spec §6): scalar strings,
mappings, sequences, and a null/absent marker. -/
inductive Node where
  | scalar (s : List Char)
  | mapping (entries : List (List Char × Node))
  | sequence (items : List Node)
  | null

/-- Serde errors as observed through the engine: `Error::custom(msg)`
for a failed `FromStr`, and `Error::invalid_type(unexpected, expected)`
produced by the default visitor methods for unsupported shapes. -/
inductive DeError where
  | custom (msg : List Char)
  | invalidType (unexpected : List Char) (expected : List Char)
deriving DecidableEq, Repr

/-- The `expecting` text of the `StringOrStruct` visitor:
`"a string or a map"`. -/
def expectedStringOrMap : List Char :=
  ['a',' ','s','t','r','i','n','g',' ','o','r',' ','a',' ','m','a','p']

/-- The display text of serde's `Unexpected` value for each node shape
(`"string"`, `"map"`, `"sequence"`, `"unit"`). -/
def shapeUnexpected : Node → List Char
  | .scalar _ => ['s','t','r','i','n','g']
  | .mapping _ => ['m','a','p']
  | .sequence _ => ['s','e','q','u','e','n','c','e']
  | .null => ['u','n','i','t']

/-- `deserialize_string_or_struct` for a target type `T` with
string-parsing rule `from_str_rule` (whose error type displays via
`showE`) and field-by-field mapping rule `struct_rule`: dispatch on the
node's shape.  A scalar goes through `visit_str` (a `FromStr` failure
becomes `Error::custom` of the displayed error); a mapping goes through
`visit_map` / the structured rule; every other shape hits a default
visitor method, which fails with `invalid_type` against the visitor's
`expecting` text. -/
def deserialize_string_or_struct {T E : Type}
    (from_str_rule : List Char → Except E T) (showE : E → List Char)
    (struct_rule : List (List Char × Node) → Except DeError T) :
    Node → Except DeError T
  | .scalar s =>
    match from_str_rule s with
    | .ok v => .ok v
    | .error e => .error (.custom (showE e))
  | .mapping entries => struct_rule entries
  | .sequence items =>
    .error (.invalidType (shapeUnexpected (.sequence items)) expectedStringOrMap)
  | .null => .error (.invalidType (shapeUnexpected .null) expectedStringOrMap)

/-- `deserialize_opt_string_or_struct`: `deserialize_option` on the
tree collaborator dispatches the null/absent marker to `visit_none`
(→ `None`) and every present value to `visit_some`, which runs
`deserialize_string_or_struct` and wraps the result in `Some`. -/
def deserialize_opt_string_or_struct {T E : Type}
    (from_str_rule : List Char → Except E T) (showE : E → List Char)
    (struct_rule : List (List Char × Node) → Except DeError T) :
    Node → Except DeError (Option T)
  | .null => .ok none
  | n => (deserialize_string_or_struct from_str_rule showE struct_rule n).map some

/-! ## Spec-side definitions and proof-side helpers -/

/-- The spec's description of a blank/comment line, written from the
spec's words ("only whitespace and/or a trailing `#comment`"): optional
whitespace followed by nothing or by `'#'` and the rest of the line.
Used to compare the source's `BLANK` regex against the spec. -/
def specBlankLine (l : List Char) : Bool :=
  match l.dropWhile isSpaceChar with
  | [] => true
  | '#' :: _ => true
  | _ => false

/-- Whether `k` is a valid env-file key: `[_A-Za-z][_A-Za-z0-9]*`. -/
def validIdentKey (k : List Char) : Bool :=
  match k with
  | [] => false
  | c :: cs => isIdentStart c && cs.all isIdentChar

/-- The keys of a variable map, in insertion order. -/
def mapKeys (m : List (List Char × List Char)) : List (List Char) :=
  m.map Prod.fst

/-- The value of the last assignment to key `k` in a line stream,
starting from a default `acc`: blank lines are skipped, a matching
`VAR` line with key `k` replaces the accumulator.  (The two arms that
stop early are only reached on streams on which `EnvFile.read` fails,
where the trailing lines are never processed.) -/
def lastAssign (k : List Char) : List LineResult → Option (List Char) →
    Option (List Char)
  | [], acc => acc
  | lr :: rest, acc =>
    match lr with
    | .error _ => acc
    | .ok line =>
      if blankLine line then lastAssign k rest acc
      else
        match varLine line with
        | some (k', v) =>
          lastAssign k rest (if k' = k then some v else acc)
        | none => acc

/-! ## Scanner lemmas -/

/-- Scanning a list whose prefix satisfies `p` up to a first failing
character splits exactly at that character. -/
theorem takeWhile_dropWhile_split {α : Type} {p : α → Bool} {n : List α}
    (x : α) (t : List α) (hn : ∀ c ∈ n, p c = true) (hx : p x = false) :
    (n ++ x :: t).takeWhile p = n ∧ (n ++ x :: t).dropWhile p = x :: t := by
  induction n with
  | nil => simp [List.takeWhile_cons, List.dropWhile_cons, hx]
  | cons c cs ih =>
    have hc : p c = true := hn c (by simp)
    have ih' := ih (fun d hd => hn d (by simp [hd]))
    simp [List.takeWhile_cons, List.dropWhile_cons, hc, ih'.1, ih'.2]

/-- The head of a non-empty `dropWhile` residue fails the predicate. -/
theorem dropWhile_head_false {α : Type} {p : α → Bool} {l t : List α}
    {c : α} (h : l.dropWhile p = c :: t) : p c = false := by
  induction l with
  | nil => simp [List.dropWhile] at h
  | cons a as ih =>
    rw [List.dropWhile_cons] at h
    by_cases hp : p a
    · simp [hp] at h
      exact ih h
    · simp [hp] at h
      rw [← h.1]
      simpa using hp

/-! ## Characterizing `AliasedName.from_str`, `validate`, `to_string` -/

namespace AliasedName

theorem from_str_colonFree {s : List Char} (hne : s ≠ []) (hcf : ':' ∉ s) :
    from_str s = .ok ⟨s, none⟩ := by
  have hall : ∀ c ∈ s, (c != ':') = true := by
    intro c hc
    simp only [bne_iff_ne, ne_eq]
    rintro rfl
    exact hcf hc
  have htake : s.takeWhile (fun c => c != ':') = s :=
    List.takeWhile_eq_self_iff.mpr hall
  have hdrop : s.dropWhile (fun c => c != ':') = [] :=
    List.dropWhile_eq_nil_iff.mpr hall
  simp only [from_str, htake, hdrop, List.isEmpty_eq_false.mpr hne]
  rfl

theorem from_str_pair {n al : List Char} (hn : n ≠ []) (hcn : ':' ∉ n)
    (ha : al ≠ []) (hca : ':' ∉ al) :
    from_str (n ++ ':' :: al) = .ok ⟨n, some al⟩ := by
  have hall : ∀ c ∈ n, (c != ':') = true := by
    intro c hc
    simp only [bne_iff_ne, ne_eq]
    rintro rfl
    exact hcn hc
  have hsplit := takeWhile_dropWhile_split (p := fun c => c != ':')
    ':' al hall (by simp)
  simp only [from_str, hsplit.1, hsplit.2, List.isEmpty_eq_false.mpr hn]
  simp [List.contains, ha, hca]

theorem from_str_ok_inv {s : List Char} {a : AliasedName}
    (h : from_str s = .ok a) :
    a.name ≠ [] ∧ ':' ∉ a.name ∧
      ((a.alias_ = none ∧ s = a.name) ∨
        (∃ al, a.alias_ = some al ∧ al ≠ [] ∧ ':' ∉ al ∧
          s = a.name ++ ':' :: al)) := by
  simp only [from_str] at h
  split at h
  · exact absurd h (by simp)
  · rename_i hne
    rw [Bool.not_eq_true, List.isEmpty_eq_false] at hne
    split at h
    · rename_i hdrop
      obtain rfl : a = ⟨s.takeWhile (fun c => c != ':'), none⟩ :=
        (Except.ok.inj h).symm
      have htake : s.takeWhile (fun c => c != ':') = s :=
        List.takeWhile_eq_self_iff.mpr (List.dropWhile_eq_nil_iff.mp hdrop)
      refine ⟨by simpa [htake] using hne, ?_, .inl ⟨rfl, by simp [htake]⟩⟩
      intro hmem
      have := List.mem_takeWhile_imp hmem
      simp at this
    · rename_i c t hdrop
      split at h
      · exact absurd h (by simp)
      · rename_i hguard
        obtain rfl : a = ⟨s.takeWhile (fun c => c != ':'), some t⟩ :=
          (Except.ok.inj h).symm
        simp only [Bool.or_eq_true, not_or, Bool.not_eq_true,
          List.isEmpty_eq_false] at hguard
        have hc : c = ':' := by
          have := dropWhile_head_false hdrop
          simpa using this
        subst hc
        refine ⟨hne, ?_, .inr ⟨t, rfl, hguard.1, ?_, ?_⟩⟩
        · intro hmem
          have := List.mem_takeWhile_imp hmem
          simp at this
        · intro hmem
          have : t.contains ':' = true := by
            simp [List.contains, hmem]
          rw [hguard.2] at this
          cases this
        · conv_lhs => rw [← List.takeWhile_append_dropWhile
            (p := fun c => c != ':') (l := s)]
          rw [hdrop]

theorem from_str_error_inv {s : List Char} {e : InvalidValueError}
    (h : from_str s = .error e) : e = ⟨aliasedNameCategory, s⟩ := by
  simp only [from_str] at h
  split at h
  · exact (Except.error.inj h).symm
  · split at h
    · exact absurd h (by simp)
    · split at h
      · exact (Except.error.inj h).symm
      · exact absurd h (by simp)

/-- `validate` succeeds exactly on colon-free fields. -/
theorem validate_ok_iff (a : AliasedName) :
    validate a = .ok () ↔
      (':' ∉ a.name ∧ ∀ al, a.alias_ = some al → ':' ∉ al) := by
  cases a with
  | mk n al =>
    cases al with
    | none => simp [validate, List.contains]
    | some al => simp [validate, List.contains]

/-- `validate` only ever fails with the invalid-value error built from
the debug rendering of the value. -/
theorem validate_error_inv {a : AliasedName} {e : InvalidValueError}
    (h : validate a = .error e) :
    e = ⟨aliasedNameCategory, debugFormat a⟩ := by
  simp only [validate] at h
  split at h
  · exact (Except.error.inj h).symm
  · exact absurd h (by simp)

end AliasedName

/-! ## Claims about the aliased-name parser -/

/-- C2: `AliasedName::from_str(s)` succeeds iff `s` is a non-empty
colon-free name optionally followed by `':'` and a non-empty colon-free
alias; on success it returns the name and optional alias parts (so
`"foo"` parses to name `"foo"` with no alias, and `"foo:bar"` to name
`"foo"` and alias `"bar"`); every other input is rejected with an
invalid-value error carrying the offending input `s`. -/
theorem C2_from_str_grammar (s : List Char) :
    ((∃ a, AliasedName.from_str s = .ok a) ↔ SpecAcceptsAliasedName s)
    ∧ (s ≠ [] → ':' ∉ s → AliasedName.from_str s = .ok ⟨s, none⟩)
    ∧ (∀ n al, s = n ++ ':' :: al → n ≠ [] → ':' ∉ n → al ≠ [] →
        ':' ∉ al → AliasedName.from_str s = .ok ⟨n, some al⟩)
    ∧ (¬ SpecAcceptsAliasedName s →
        AliasedName.from_str s = .error ⟨aliasedNameCategory, s⟩) := by
  refine ⟨⟨?_, ?_⟩, ?_, ?_, ?_⟩
  · rintro ⟨a, ha⟩
    obtain ⟨hne, hcf, hcase⟩ := AliasedName.from_str_ok_inv ha
    rcases hcase with ⟨_, rfl⟩ | ⟨al, _, hal, hcal, rfl⟩
    · exact .inl ⟨hne, hcf⟩
    · exact .inr ⟨a.name, al, rfl, hne, hcf, hal, hcal⟩
  · rintro (⟨hne, hcf⟩ | ⟨n, al, rfl, hn, hcn, hal, hca⟩)
    · exact ⟨_, AliasedName.from_str_colonFree hne hcf⟩
    · exact ⟨_, AliasedName.from_str_pair hn hcn hal hca⟩
  · exact fun hne hcf => AliasedName.from_str_colonFree hne hcf
  · rintro n al rfl hn hcn hal hca
    exact AliasedName.from_str_pair hn hcn hal hca
  · intro hnot
    cases hfs : AliasedName.from_str s with
    | error e => rw [AliasedName.from_str_error_inv hfs]
    | ok a =>
      obtain ⟨hne, hcf, hcase⟩ := AliasedName.from_str_ok_inv hfs
      rcases hcase with ⟨_, rfl⟩ | ⟨al, _, hal, hcal, rfl⟩
      · exact absurd (.inl ⟨hne, hcf⟩) hnot
      · exact absurd (.inr ⟨a.name, al, rfl, hne, hcf, hal, hcal⟩) hnot

/-- Witness for C2 at `"foo:bar"`. -/
theorem C2_witness :
    AliasedName.from_str ['f','o','o',':','b','a','r'] =
      .ok ⟨['f','o','o'], some ['b','a','r']⟩ :=
  (C2_from_str_grammar ['f','o','o',':','b','a','r']).2.2.1
    ['f','o','o'] ['b','a','r'] (by decide) (by decide) (by decide)
    (by decide) (by decide)

/-- C1 counterexample: `AliasedName::new("", None)` succeeds (validate
only rejects `':'`), `to_string` then succeeds with `""`, but
`from_str("")` is an error, so the round-trip claim fails for a value
accepted by `to_string` and constructed by `new`. -/
theorem C1_counterexample :
    AliasedName.new [] none = .ok ⟨[], none⟩ ∧
    AliasedName.to_string ⟨[], none⟩ = .ok [] ∧
    AliasedName.from_str [] = .error ⟨aliasedNameCategory, []⟩ := by
  decide

/-- C1 (amended): for every `AliasedName` on which `to_string` succeeds
whose name is non-empty and whose alias, if present, is non-empty,
parsing the rendered string back yields the same value. -/
theorem C1_roundtrip_amended (v : AliasedName) (s : List Char)
    (h : AliasedName.to_string v = .ok s) (hn : v.name ≠ [])
    (ha : v.alias_ ≠ some []) :
    AliasedName.from_str s = .ok v := by
  obtain ⟨n, al⟩ := v
  simp only [ne_eq] at hn ha
  cases al with
  | none =>
    simp only [AliasedName.to_string] at h
    split at h
    · exact absurd h (by simp)
    · rename_i u hval
      have hfree := (AliasedName.validate_ok_iff ⟨n, none⟩).mp
        (by cases u; exact hval)
      obtain rfl : n = s := Except.ok.inj h
      exact AliasedName.from_str_colonFree hn hfree.1
  | some al =>
    simp only [AliasedName.to_string] at h
    split at h
    · exact absurd h (by simp)
    · rename_i u hval
      have hfree := (AliasedName.validate_ok_iff ⟨n, some al⟩).mp
        (by cases u; exact hval)
      obtain rfl : n ++ ':' :: al = s := Except.ok.inj h
      have hal : al ≠ [] := by
        intro hnil
        exact ha (by rw [hnil])
      exact AliasedName.from_str_pair hn hfree.1 hal (hfree.2 al rfl)

/-- Witness for the amended C1 at `{name:"foo", alias:Some("bar")}`. -/
theorem C1_witness :
    AliasedName.from_str ['f','o','o',':','b','a','r'] =
      .ok ⟨['f','o','o'], some ['b','a','r']⟩ :=
  C1_roundtrip_amended ⟨['f','o','o'], some ['b','a','r']⟩
    ['f','o','o',':','b','a','r'] (by decide) (by decide) (by decide)

/-- C5: `to_string` re-validates: it returns a validation error exactly
when the name or the present alias contains `':'`, and otherwise
renders `"name"` (alias absent) or `"name:alias"` (alias present),
independently of how the value was constructed. -/
theorem C5_to_string_revalidates (a : AliasedName) :
    ((∃ e, AliasedName.to_string a = .error e) ↔
      (':' ∈ a.name ∨ ∃ al, a.alias_ = some al ∧ ':' ∈ al))
    ∧ (':' ∉ a.name → (∀ al, a.alias_ = some al → ':' ∉ al) →
        AliasedName.to_string a =
          .ok (match a.alias_ with
               | none => a.name
               | some al => a.name ++ ':' :: al)) := by
  constructor
  · constructor
    · rintro ⟨e, he⟩
      by_contra hno
      push_neg at hno
      have hok : AliasedName.validate a = .ok () :=
        (AliasedName.validate_ok_iff a).mpr
          ⟨hno.1, fun al hal => hno.2 al hal⟩
      simp only [AliasedName.to_string, hok] at he
      cases halias : a.alias_ <;> simp [halias] at he
    · intro hbad
      cases hv : AliasedName.validate a with
      | error e =>
        refine ⟨e, ?_⟩
        simp [AliasedName.to_string, hv]
      | ok u =>
        have hfree := (AliasedName.validate_ok_iff a).mp
          (by cases u; exact hv)
        rcases hbad with hbn | ⟨al, hal, hmem⟩
        · exact absurd hbn hfree.1
        · exact absurd hmem (hfree.2 al hal)
  · intro hn hal
    have hok : AliasedName.validate a = .ok () :=
      (AliasedName.validate_ok_iff a).mpr ⟨hn, hal⟩
    simp only [AliasedName.to_string, hok]
    cases halias : a.alias_ <;> simp [halias]

/-- Witness for C5 at `{name:"f", alias:Some("b")}`. -/
theorem C5_witness :
    AliasedName.to_string ⟨['f'], some ['b']⟩ = .ok ['f',':','b'] := by
  have := (C5_to_string_revalidates ⟨['f'], some ['b']⟩).2
    (by decide) (by decide)
  simpa using this

/-- C10: rendering a value obtained from `from_str` reproduces the
accepted input text exactly: `to_string (from_str s) = Ok s`. -/
theorem C10_render_parsed (s : List Char) (a : AliasedName)
    (h : AliasedName.from_str s = .ok a) :
    AliasedName.to_string a = .ok s := by
  obtain ⟨hne, hcf, hcase⟩ := AliasedName.from_str_ok_inv h
  rcases hcase with ⟨halias, rfl⟩ | ⟨al, halias, hal, hcal, rfl⟩
  · have hok : AliasedName.validate a = .ok () :=
      (AliasedName.validate_ok_iff a).mpr
        ⟨hcf, by intro al' h'; rw [halias] at h'; cases h'⟩
    simp [AliasedName.to_string, hok, halias]
  · have hok : AliasedName.validate a = .ok () :=
      (AliasedName.validate_ok_iff a).mpr
        ⟨hcf, by
          intro al' h'
          rw [halias] at h'
          obtain rfl := Option.some.inj h'
          exact hcal⟩
    simp [AliasedName.to_string, hok, halias]

/-- Witness for C10 at `s = "foo:bar"`. -/
theorem C10_witness :
    AliasedName.to_string ⟨['f','o','o'], some ['b','a','r']⟩ =
      .ok ['f','o','o',':','b','a','r'] :=
  C10_render_parsed ['f','o','o',':','b','a','r']
    ⟨['f','o','o'], some ['b','a','r']⟩ (by decide)

/-! ## Lemmas on the variable map and the read loop -/

theorem lookupVar_insertVar (k k' v : List Char)
    (m : List (List Char × List Char)) :
    lookupVar k (insertVar k' v m) =
      if k' = k then some v else lookupVar k m := by
  induction m with
  | nil =>
    by_cases h : k' = k <;> simp [insertVar, lookupVar, h]
  | cons kv rest ih =>
    obtain ⟨k'', v''⟩ := kv
    by_cases h : k' = k''
    · subst h
      by_cases hk : k' = k <;> simp [insertVar, lookupVar, hk]
    · by_cases hk : k'' = k
      · have hk' : ¬k' = k := fun hc => h (hc.trans hk.symm)
        simp [insertVar, lookupVar, h, hk, hk']
      · simp [insertVar, lookupVar, h, hk, ih]

theorem mem_mapKeys_insertVar {x k v : List Char}
    {m : List (List Char × List Char)} :
    x ∈ mapKeys (insertVar k v m) ↔ x = k ∨ x ∈ mapKeys m := by
  induction m with
  | nil => simp [insertVar, mapKeys]
  | cons kv rest ih =>
    obtain ⟨k'', v''⟩ := kv
    by_cases h : k = k''
    · subst h
      simp [insertVar, mapKeys]
    · simp only [mapKeys, List.map_cons] at ih ⊢
      simp only [insertVar, if_neg h, List.map_cons, List.mem_cons]
      rw [ih]
      tauto

theorem mapKeys_nodup_insertVar {k v : List Char}
    {m : List (List Char × List Char)} (h : (mapKeys m).Nodup) :
    (mapKeys (insertVar k v m)).Nodup := by
  induction m with
  | nil => simp [insertVar, mapKeys]
  | cons kv rest ih =>
    obtain ⟨k'', v''⟩ := kv
    simp only [mapKeys, List.map_cons, List.nodup_cons] at h
    by_cases hk : k = k''
    · subst hk
      have hins : insertVar k v ((k, v'') :: rest) = (k, v) :: rest := by
        simp [insertVar]
      rw [hins]
      simp only [mapKeys, List.map_cons, List.nodup_cons]
      exact h
    · simp only [insertVar, if_neg hk, mapKeys, List.map_cons,
        List.nodup_cons]
      refine ⟨?_, ih h.2⟩
      intro hmem
      rcases mem_mapKeys_insertVar.mp hmem with rfl | hmem'
      · exact hk rfl
      · exact h.1 hmem'

theorem readGo_ok_nodup {input : List LineResult}
    {vars m : List (List Char × List Char)}
    (h : EnvFile.readGo input vars = .ok m)
    (hv : (mapKeys vars).Nodup) : (mapKeys m).Nodup := by
  induction input generalizing vars with
  | nil =>
    have h' : vars = m := by simpa [EnvFile.readGo] using h
    subst h'
    exact hv
  | cons lr rest ih =>
    cases lr with
    | error e => simp [EnvFile.readGo] at h
    | ok line =>
      simp only [EnvFile.readGo] at h
      by_cases hb : blankLine line = true
      · rw [if_pos hb] at h
        exact ih h hv
      · rw [if_neg hb] at h
        cases hvl : varLine line with
        | none => rw [hvl] at h; simp at h
        | some kv =>
          obtain ⟨k, v⟩ := kv
          rw [hvl] at h
          exact ih h (mapKeys_nodup_insertVar hv)

theorem readGo_ok_lookup {input : List LineResult}
    {vars m : List (List Char × List Char)} (k : List Char)
    (h : EnvFile.readGo input vars = .ok m) :
    lookupVar k m = lastAssign k input (lookupVar k vars) := by
  induction input generalizing vars with
  | nil =>
    have h' : vars = m := by simpa [EnvFile.readGo] using h
    subst h'
    simp [lastAssign]
  | cons lr rest ih =>
    cases lr with
    | error e => simp [EnvFile.readGo] at h
    | ok line =>
      simp only [EnvFile.readGo] at h
      by_cases hb : blankLine line = true
      · rw [if_pos hb] at h
        simp only [lastAssign, hb, if_pos rfl]
        exact ih h
      · rw [if_neg hb] at h
        cases hvl : varLine line with
        | none => rw [hvl] at h; simp at h
        | some kv =>
          obtain ⟨k', v⟩ := kv
          rw [hvl] at h
          have := ih h
          rw [lookupVar_insertVar] at this
          simp only [lastAssign, hvl]
          rw [if_neg (by simpa using hb)]
          exact this

/-- An identifier-start character is not whitespace. -/
theorem identStart_not_space {c : Char} (h : isIdentStart c = true) :
    isSpaceChar c = false := by
  by_contra hc
  rw [Bool.not_eq_false] at hc
  simp only [isSpaceChar, Bool.or_eq_true, decide_eq_true_eq] at hc
  rcases hc with ((((hc | hc) | hc) | hc) | hc) | hc <;> subst hc <;>
    exact absurd h (by decide)

/-- A line that starts with an identifier character is not blank. -/
theorem blankLine_var_false {c : Char} {l : List Char}
    (h : isIdentStart c = true) : blankLine (c :: l) = false := by
  have hs : isSpaceChar c = false := identStart_not_space h
  unfold blankLine
  rw [List.dropWhile_cons, if_neg (by simp [hs])]
  split
  · rename_i heq
    cases heq
  · rename_i heq
    obtain rfl : c = '#' := (List.cons.inj heq).1
    exact absurd h (by decide)
  · rename_i heq
    obtain rfl : c = ':' := (List.cons.inj heq).1
    exact absurd h (by decide)
  · rfl

/-- The VAR regex captures a valid-identifier key and the verbatim
rest of the line after `'='`. -/
theorem varLine_assign {k v : List Char} (hk : validIdentKey k = true) :
    varLine (k ++ '=' :: v) = some (k, v) := by
  cases k with
  | nil => simp [validIdentKey] at hk
  | cons c cs =>
    simp only [validIdentKey, Bool.and_eq_true] at hk
    have hall : ∀ d ∈ cs, isIdentChar d = true := by
      rw [List.all_eq_true] at hk
      intro d hd
      exact hk.2 d hd
    have hsplit := takeWhile_dropWhile_split (p := isIdentChar) '=' v hall
      (by decide)
    rw [List.cons_append]
    simp only [varLine]
    rw [if_pos hk.1, hsplit.2, hsplit.1]
    rfl

/-! ## Claims about the environment-file parser -/

/-- C4 (code bug): the BLANK regex is written `^\s*(:?#.*)?$` — with
`(:?` instead of the intended non-capturing `(?:` — so a content line
such as `":#oops"` is silently skipped as blank, while it is neither a
whitespace/`#comment` line in the spec's sense nor a `KEY=value` line,
and the claim demands a parse error carrying that line. -/
theorem C4_blank_regex_typo :
    EnvFile.read (pureLines [(":#oops".data)]) = .ok [] ∧
    specBlankLine (":#oops".data) = false ∧
    varLine (":#oops".data) = none ∧
    blankLine (":#oops".data) = true := by
  decide

/-- C6: whenever `EnvFile::read` succeeds, each key appears exactly
once in the result and the value bound to any key is the value of the
last assignment to it in the input, so a later `X=2` overrides an
earlier `X=1`; run concretely on `X=1` then `X=2`. -/
theorem C6_last_write_wins (input : List LineResult)
    (m : List (List Char × List Char)) (k : List Char)
    (h : EnvFile.read input = .ok m) :
    (mapKeys m).Nodup ∧
    lookupVar k m = lastAssign k input none ∧
    EnvFile.read (pureLines [("X=1".data), ("X=2".data)]) =
      .ok [(("X".data), ("2".data))] := by
  refine ⟨readGo_ok_nodup h (by simp [mapKeys]), ?_, by decide⟩
  have := readGo_ok_lookup k h
  simpa [lookupVar] using this

/-- Witness for C6 on the two-line file `X=1`, `X=2`. -/
theorem C6_witness :
    (mapKeys [(("X".data), ("2".data))]).Nodup ∧
    lookupVar ("X".data) [(("X".data), ("2".data))] =
      lastAssign ("X".data) (pureLines [("X=1".data), ("X=2".data)]) none ∧
    EnvFile.read (pureLines [("X=1".data), ("X=2".data)]) =
      .ok [(("X".data), ("2".data))] :=
  C6_last_write_wins (pureLines [("X=1".data), ("X=2".data)])
    [(("X".data), ("2".data))] ("X".data) (by decide)

/-- C7: the text after `'='` is taken verbatim as the value (no quote
or escape processing): any line `key=value` with a valid identifier key
is a non-blank content line captured as `(key, value)` exactly, and the
spec's fixture — blank lines, a comment, `FOO=foo`, `BAR=2`,
`WEIRD="quoted"` — yields exactly the three keys with `WEIRD` bound to
the literal text `"quoted"` including its quote characters. -/
theorem C7_verbatim_value (k v : List Char) (hk : validIdentKey k = true) :
    blankLine (k ++ '=' :: v) = false ∧
    varLine (k ++ '=' :: v) = some (k, v) ∧
    EnvFile.read (pureLines [k ++ '=' :: v]) = .ok [(k, v)] ∧
    (EnvFile.read (pureLines
        [[], (" ".data), ("# This is a comment.".data), ("FOO=foo".data),
          ("BAR=2".data), [], ("WEIRD=\"quoted\"".data)]) =
      .ok [(("FOO".data), ("foo".data)), (("BAR".data), ("2".data)),
        (("WEIRD".data), ("\"quoted\"".data))] ∧
     mapKeys [(("FOO".data), ("foo".data)), (("BAR".data), ("2".data)),
        (("WEIRD".data), ("\"quoted\"".data))] =
       [("FOO".data), ("BAR".data), ("WEIRD".data)] ∧
     lookupVar ("WEIRD".data)
        [(("FOO".data), ("foo".data)), (("BAR".data), ("2".data)),
          (("WEIRD".data), ("\"quoted\"".data))] =
       some ('"' :: ("quoted".data) ++ ['"'])) := by
  obtain ⟨c, cs, rfl⟩ : ∃ c cs, k = c :: cs := by
    cases k with
    | nil => simp [validIdentKey] at hk
    | cons c cs => exact ⟨c, cs, rfl⟩
  have hstart : isIdentStart c = true := by
    simp only [validIdentKey, Bool.and_eq_true] at hk
    exact hk.1
  have hb : blankLine (c :: (cs ++ '=' :: v)) = false :=
    blankLine_var_false hstart
  have hv : varLine (c :: (cs ++ '=' :: v)) = some (c :: cs, v) := by
    have h' := varLine_assign (k := c :: cs) (v := v) hk
    rwa [List.cons_append] at h'
  refine ⟨?_, ?_, ?_, by decide⟩
  · rw [List.cons_append]
    exact hb
  · rw [List.cons_append]
    exact hv
  · rw [List.cons_append]
    simp [EnvFile.read, EnvFile.readGo, pureLines, hb, hv, insertVar]

/-- Witness for C7 at `WEIRD="quoted"`. -/
theorem C7_witness :
    blankLine (("WEIRD".data) ++ '=' :: ("\"quoted\"".data)) = false ∧
    varLine (("WEIRD".data) ++ '=' :: ("\"quoted\"".data)) =
      some (("WEIRD".data), ("\"quoted\"".data)) ∧
    EnvFile.read (pureLines [("WEIRD".data) ++ '=' :: ("\"quoted\"".data)]) =
      .ok [(("WEIRD".data), ("\"quoted\"".data))] ∧
    (EnvFile.read (pureLines
        [[], (" ".data), ("# This is a comment.".data), ("FOO=foo".data),
          ("BAR=2".data), [], ("WEIRD=\"quoted\"".data)]) =
      .ok [(("FOO".data), ("foo".data)), (("BAR".data), ("2".data)),
        (("WEIRD".data), ("\"quoted\"".data))] ∧
     mapKeys [(("FOO".data), ("foo".data)), (("BAR".data), ("2".data)),
        (("WEIRD".data), ("\"quoted\"".data))] =
       [("FOO".data), ("BAR".data), ("WEIRD".data)] ∧
     lookupVar ("WEIRD".data)
        [(("FOO".data), ("foo".data)), (("BAR".data), ("2".data)),
          (("WEIRD".data), ("\"quoted\"".data))] =
       some ('"' :: ("quoted".data) ++ ['"'])) :=
  C7_verbatim_value ("WEIRD".data) ("\"quoted\"".data) (by decide)

/-- C8: every failure of `EnvFile::load(path)` is
`ErrorKind::ReadFile(path)` layered over its cause, so it carries the
path; a parse failure from `read` is preserved underneath (not
replaced); and an open-time I/O failure (`openFailed`) is distinct from
a read-time one (`readFailed (ioError _)`, which carries the extra
"I/O error" layer added inside `read`). -/
theorem C8_load_error_paths
    (fsys : List Char → Except IoErr (List LineResult))
    (path : List Char) :
    (∀ r, EnvFile.load fsys path = .error r →
      ∃ cause, r = .readFile path cause) ∧
    (∀ e, fsys path = .error e →
      EnvFile.load fsys path = .error (.readFile path (.openFailed e))) ∧
    (∀ stream line, fsys path = .ok stream →
      EnvFile.read stream = .error (.parseEnv line) →
      EnvFile.load fsys path =
        .error (.readFile path (.readFailed (.parseEnv line)))) ∧
    (∀ stream e, fsys path = .ok stream →
      EnvFile.read stream = .error (.ioError e) →
      EnvFile.load fsys path =
        .error (.readFile path (.readFailed (.ioError e)))) := by
  refine ⟨?_, ?_, ?_, ?_⟩
  · intro r hr
    unfold EnvFile.load at hr
    cases hf : fsys path with
    | error e =>
      rw [hf] at hr
      exact ⟨_, (Except.error.inj hr).symm⟩
    | ok stream =>
      rw [hf] at hr
      have hr' : (match EnvFile.read stream with
          | .error e =>
            .error (EnvLoadErr.readFile path (EnvLoadCause.readFailed e))
          | .ok vars => .ok vars) = Except.error r := hr
      cases hread : EnvFile.read stream with
      | error e =>
        rw [hread] at hr'
        exact ⟨_, (Except.error.inj hr').symm⟩
      | ok vars =>
        rw [hread] at hr'
        exact Except.noConfusion hr' 
  · intro e he
    simp [EnvFile.load, he]
  · intro stream line hf hread
    simp [EnvFile.load, hf, hread]
  · intro stream e hf hread
    simp [EnvFile.load, hf, hread]

/-- Witness for C8: a missing file (`open` fails with I/O error 2)
yields the path-carrying open failure. -/
theorem C8_witness :
    EnvFile.load (fun _ => .error ⟨2⟩) ("p.env".data) =
      .error (.readFile ("p.env".data) (.openFailed ⟨2⟩)) :=
  (C8_load_error_paths (fun _ => .error ⟨2⟩) ("p.env".data)).2.1 ⟨2⟩ rfl

/-! ## Claims about the string-or-struct engine -/

/-- C3: a node that is neither a scalar string nor a mapping is
rejected by `deserialize_string_or_struct` with an invalid-type error
whose expected-shape description is `"a string or a map"`, and is never
coerced to any success value. -/
theorem C3_shape_rejection {T E : Type}
    (from_str_rule : List Char → Except E T) (showE : E → List Char)
    (struct_rule : List (List Char × Node) → Except DeError T)
    (n : Node) (hs : ∀ s, n ≠ .scalar s)
    (hm : ∀ entries, n ≠ .mapping entries) :
    deserialize_string_or_struct from_str_rule showE struct_rule n =
      .error (.invalidType (shapeUnexpected n) expectedStringOrMap) ∧
    ∀ v, deserialize_string_or_struct from_str_rule showE struct_rule n ≠
      .ok v := by
  cases n with
  | scalar s => exact absurd rfl (hs s)
  | mapping entries => exact absurd rfl (hm entries)
  | sequence items => exact ⟨rfl, fun v h => Except.noConfusion h⟩
  | null => exact ⟨rfl, fun v h => Except.noConfusion h⟩

/-- Witness for C3 on a sequence node (identity string rule, trivial
struct rule). -/
theorem C3_witness :
    deserialize_string_or_struct (fun s => (.ok s : Except Empty (List Char)))
      (fun e => e.elim) (fun _ => .ok []) (.sequence []) =
      .error (.invalidType (shapeUnexpected (.sequence []))
        expectedStringOrMap) :=
  (C3_shape_rejection (fun s => (.ok s : Except Empty (List Char)))
    (fun e => e.elim) (fun _ => .ok []) (.sequence [])
    (fun _ h => Node.noConfusion h) (fun _ h => Node.noConfusion h)).1

/-- C9: the optional engine returns `None` exactly on the explicit
null/absent marker; every present node goes through
`deserialize_string_or_struct` and its result (success or error) is
returned wrapped in `Some`; a present empty scalar is parsed as a
string, not treated as absent. -/
theorem C9_opt_engine {T E : Type}
    (from_str_rule : List Char → Except E T) (showE : E → List Char)
    (struct_rule : List (List Char × Node) → Except DeError T) :
    deserialize_opt_string_or_struct from_str_rule showE struct_rule .null =
      .ok none ∧
    (∀ n, n ≠ .null →
      deserialize_opt_string_or_struct from_str_rule showE struct_rule n =
        (deserialize_string_or_struct from_str_rule showE struct_rule n).map
          some) ∧
    (∀ n, deserialize_opt_string_or_struct from_str_rule showE struct_rule n =
      .ok none → n = .null) ∧
    (∀ t, from_str_rule [] = .ok t →
      deserialize_opt_string_or_struct from_str_rule showE struct_rule
        (.scalar []) = .ok (some t)) := by
  refine ⟨rfl, ?_, ?_, ?_⟩
  · intro n hn
    cases n with
    | null => exact absurd rfl hn
    | scalar s => rfl
    | mapping entries => rfl
    | sequence items => rfl
  · intro n h
    cases n with
    | null => rfl
    | scalar s =>
      exfalso
      have h' : (deserialize_string_or_struct from_str_rule showE struct_rule
          (.scalar s)).map some = .ok none := h
      cases hx : deserialize_string_or_struct from_str_rule showE struct_rule
          (.scalar s) <;> rw [hx] at h' <;> simp [Except.map] at h'
    | mapping entries =>
      exfalso
      have h' : (deserialize_string_or_struct from_str_rule showE struct_rule
          (.mapping entries)).map some = .ok none := h
      cases hx : deserialize_string_or_struct from_str_rule showE struct_rule
          (.mapping entries) <;> rw [hx] at h' <;> simp [Except.map] at h'
    | sequence items =>
      exfalso
      have h' : (deserialize_string_or_struct from_str_rule showE struct_rule
          (.sequence items)).map some = .ok none := h
      cases hx : deserialize_string_or_struct from_str_rule showE struct_rule
          (.sequence items) <;> rw [hx] at h' <;> simp [Except.map] at h'
  · intro t ht
    have hd : deserialize_string_or_struct from_str_rule showE struct_rule
        (.scalar []) = .ok t := by
      simp [deserialize_string_or_struct, ht]
    show (deserialize_string_or_struct from_str_rule showE struct_rule
      (.scalar [])).map some = .ok (some t)
    rw [hd]
    rfl

/-- Witness for C9: the null marker yields `None` for the identity
string rule. -/
theorem C9_witness :
    deserialize_opt_string_or_struct
      (fun s => (.ok s : Except Empty (List Char)))
      (fun e => e.elim) (fun _ => .ok []) .null = .ok none :=
  (C9_opt_engine (fun s => (.ok s : Except Empty (List Char)))
    (fun e => e.elim) (fun _ => .ok [])).1

end ComposeYml

